import Mathlib

/-!
Verification of the gene-selection and draft-assembly core of Plant-GEMs
(`blasting.py`): the hit filter `select_genes` and the draft assembler
`drafting`.

Embedding conventions.
* A blast output line is `res.split(",")` followed by the per-field loop
  `try: spl[i] = float(spl[i]) except ValueError: pass`.  After that loop every
  field is either a parsed number or the original text.  We embed the record in
  this post-conversion form as a `List PyVal`, where `PyVal.num` is a parsed
  numeric field (modelled as a rational) and `PyVal.str` a field that failed to
  parse.  Numeric comparisons and arithmetic on rationals model the Python
  float comparisons and arithmetic of the source.
* Python exceptions that the source does not catch (`IndexError` from `spl[i]`
  on a short record, `TypeError` from comparing or multiplying a leftover
  string with a number) are modelled with `Except PyErr`; the `KeyError` that
  the source catches is resolved away into the corresponding dictionary
  operation, as in the source's `try/except KeyError` blocks.
* Python dictionaries preserve insertion order, so they are embedded as
  ordered association lists: lookup takes the first matching key, a new key is
  appended at the end.
* `str.split(sep)` / `sep.join(l)` are embedded by the structurally recursive
  `pySplit` / `pyJoin` below, with Python's semantics: splitting on each
  leftmost non-overlapping occurrence of the separator, `"".split(sep) = [""]`.
-/

inductive PyVal where
  | num (q : ℚ)
  | str (s : String)
  deriving DecidableEq, Repr

inductive PyErr where
  | indexError
  | typeError
  deriving DecidableEq, Repr

/-- The output dictionary `dico_genes` of `select_genes`: insertion-ordered
map from reference-gene id to the list of accumulated subject-id fields. -/
abbrev Dico := List (String × List PyVal)

/-- The net effect of the source's
`try: dico_genes[key].append(v) except KeyError: dico_genes[key] = [v]`:
append `v` to the entry of `key` when present, otherwise insert the new key
at the end (Python dicts append new keys in insertion order). -/
def dicoAppend (d : Dico) (key : String) (v : PyVal) : Dico :=
  match d with
  | [] => [(key, [v])]
  | (k, vs) :: rest =>
      if k = key then (k, vs ++ [v]) :: rest
      else (k, vs) :: dicoAppend rest key v

/-- Loop body of `select_genes` for one alignment record `spl` under reference
gene `key` (blasting.py lines 131-150), with the evaluation order of the
source: `len_subject = spl[3]`, then `len_query` (which multiplies `spl[1]`
by a number, a `TypeError` when `spl[1]` stayed text), then the short-circuit
five-way condition, then the guarded append of `spl[2]`. -/
def select_record (dico : Dico) (key : String) (spl : List PyVal)
    (identity diff e_val coverage bit_score : ℚ) : Except PyErr Dico :=
  match spl.get? 3 with
  | none => .error .indexError
  | some len_subject =>
    match spl.get? 1 with
    | none => .error .indexError
    | some (.str _) => .error .typeError
    | some (.num qlen) =>
      match spl.get? 6 with
      | none => .error .indexError
      | some (.str _) => .error .typeError
      | some (.num pident) =>
        if identity ≤ pident then
          match len_subject with
          | .str _ => .error .typeError
          | .num slen =>
            if qlen * (100 - diff) / 100 ≤ slen then
              if slen ≤ qlen * (100 + diff) / 100 then
                match spl.get? 4 with
                | none => .error .indexError
                | some (.str _) => .error .typeError
                | some (.num alen) =>
                  if coverage / 100 * qlen ≤ alen then
                    match spl.get? 9 with
                    | none => .error .indexError
                    | some (.str _) => .error .typeError
                    | some (.num bits) =>
                      if bit_score ≤ bits then
                        match spl.get? 8 with
                        | none => .error .indexError
                        | some (.str _) => .error .typeError
                        | some (.num evl) =>
                          if evl ≤ e_val then
                            match spl.get? 2 with
                            | none => .error .indexError
                            | some sid => .ok (dicoAppend dico key sid)
                          else .ok dico
                      else .ok dico
                  else .ok dico
              else .ok dico
            else .ok dico
        else .ok dico

/-- Inner loop of `select_genes`: all records of one reference gene, in order. -/
def select_list (dico : Dico) (key : String) (records : List (List PyVal))
    (identity diff e_val coverage bit_score : ℚ) : Except PyErr Dico :=
  match records with
  | [] => .ok dico
  | spl :: rest =>
      match select_record dico key spl identity diff e_val coverage bit_score with
      | .error e => .error e
      | .ok d => select_list d key rest identity diff e_val coverage bit_score

/-- `select_genes` (blasting.py lines 114-151): iterate the blast-result map
in key insertion order, accumulating `dico_genes` from the empty dict. -/
def select_genes_from (dico : Dico) (blast_res : List (String × List (List PyVal)))
    (identity diff e_val coverage bit_score : ℚ) : Except PyErr Dico :=
  match blast_res with
  | [] => .ok dico
  | (key, records) :: rest =>
      match select_list dico key records identity diff e_val coverage bit_score with
      | .error e => .error e
      | .ok d => select_genes_from d rest identity diff e_val coverage bit_score

def select_genes (blast_res : List (String × List (List PyVal)))
    (identity diff e_val coverage bit_score : ℚ) : Except PyErr Dico :=
  select_genes_from [] blast_res identity diff e_val coverage bit_score

/-- The conjunction of the five threshold criteria of `select_genes`, on the
parsed numeric fields of a record. -/
def passes_thresholds (qlen slen alen pident evl bits : ℚ)
    (identity diff e_val coverage bit_score : ℚ) : Bool :=
  decide (identity ≤ pident) &&
  decide (qlen * (100 - diff) / 100 ≤ slen) &&
  decide (slen ≤ qlen * (100 + diff) / 100) &&
  decide (coverage / 100 * qlen ≤ alen) &&
  decide (bit_score ≤ bits) &&
  decide (evl ≤ e_val)

/-- `stripSep sep s` removes `sep` from the front of `s` when it is literally
there, the primitive of separator matching in `pySplit`. -/
def stripSep : List Char → List Char → Option (List Char)
  | [], s => some s
  | _ :: _, [] => none
  | p :: ps, c :: cs => if c = p then stripSep ps cs else none

/-- Worker of `pySplit`; `fuel` bounds the number of steps (one character or
one separator occurrence is consumed per step), so `fuel = s.length` always
suffices for a non-empty separator. -/
def pySplitGo (sep : List Char) : Nat → List Char → List Char → List (List Char)
  | _, cur, [] => [cur.reverse]
  | 0, cur, s => [cur.reverse ++ s]
  | fuel + 1, cur, c :: cs =>
      match stripSep sep (c :: cs) with
      | some rest => cur.reverse :: pySplitGo sep fuel [] rest
      | none => pySplitGo sep fuel (c :: cur) cs

/-- Python's `s.split(sep)` for a given separator: split on each leftmost
non-overlapping occurrence; the empty string yields `[""]`.  (Python raises on
an empty separator; the source only ever uses `" or "`, and we mirror the
degenerate case as the identity split.) -/
def pySplit (sep s : String) : List String :=
  if sep = "" then [s]
  else (pySplitGo sep.data s.data.length [] s.data).map String.mk

/-- Python's `sep.join(l)`. -/
def pyJoin (sep : String) : List String → String
  | [] => ""
  | [x] => x
  | x :: y :: xs => x ++ sep ++ pyJoin sep (y :: xs)

/-- A COBRA reaction as `drafting` uses it: an identifier, the gene-reaction
rule string, and the stoichiometric definition (metabolite id with
coefficient), opaque to this core but carried along by `copy.deepcopy`. -/
structure Reaction where
  id : String
  gene_reaction_rule : String
  metabolites : List (String × ℚ)
  deriving DecidableEq, Repr

structure Model where
  name : String
  reactions : List Reaction
  deriving DecidableEq, Repr

/-- Accumulation of `to_add` in `drafting`: for each gene token, `try:
to_add += dico_genes[gene] except KeyError: pass`. -/
def to_add_of (dico_genes : List (String × List String)) (to_search : List String) :
    List String :=
  to_search.foldl
    (fun acc gene =>
      match dico_genes.lookup gene with
      | some l => acc ++ l
      | none => acc)
    []

/-- Loop body of `drafting` for one reference reaction: split the rule on
`" or "`, accumulate matches, rejoin; on a non-empty rewritten rule append a
deep copy of the reaction carrying the new rule, else drop the reaction. -/
def drafting_step (dico_genes : List (String × List String))
    (acc : List Reaction) (reac : Reaction) : List Reaction :=
  let to_search := pySplit " or " reac.gene_reaction_rule
  let string_reaction_rule := pyJoin " or " (to_add_of dico_genes to_search)
  if string_reaction_rule = "" then acc
  else acc ++ [{ reac with gene_reaction_rule := string_reaction_rule }]

/-- `drafting` (blasting.py lines 154-181): build the new model from scratch,
walking the reference model's reactions in order. -/
def drafting (model : Model) (dico_genes : List (String × List String))
    (model_name : String) : Model :=
  { name := model_name
    reactions := model.reactions.foldl (drafting_step dico_genes) [] }

/-- `drafting` with the reference model's reaction collection threaded through
the loop, making the heap effect explicit: `x = copy.deepcopy(reac)` means the
assignment `x.gene_reaction_rule = ...` mutates only the copy, so each
iteration hands `reac` back to the reference collection unchanged.  The first
component is the draft under construction, the second the reference model as
the loop leaves it. -/
def drafting_with_ref (model : Model) (dico_genes : List (String × List String))
    (model_name : String) : Model × Model :=
  let res := model.reactions.foldl
    (fun (st : List Reaction × List Reaction) reac =>
      (drafting_step dico_genes st.1 reac, st.2 ++ [reac]))
    ([], [])
  ({ name := model_name, reactions := res.1 },
   { model with reactions := res.2 })

/-- Sequencing of the error-propagating loop, used to restructure runs of
`select_genes` over decompositions of the input. -/
def exBind (x : Except PyErr Dico) (f : Dico → Except PyErr Dico) : Except PyErr Dico :=
  match x with
  | .error e => .error e
  | .ok d => f d

/-- A malformed alignment record in the sense of the spec: wrong field count
(a blast line has exactly ten fields, so any other count is a format error)
or a required numeric field left as unparsed text. -/
def malformed_record (spl : List PyVal) : Prop :=
  spl.length ≠ 10 ∨
    ∃ i ∈ ([1, 3, 4, 6, 8, 9] : List Nat), ∃ s, spl.get? i = some (PyVal.str s)

/-- The strictly smaller class of malformed records that the filter does
exclude: fewer than ten fields (a required field is missing), or a required
numeric field left as unparsed text.  A record with MORE than ten fields is
also malformed per the spec, but the loop body reads only the first ten
fields, processes it normally, and it can match. -/
def deficient_record (spl : List PyVal) : Prop :=
  spl.length < 10 ∨
    ∃ i ∈ ([1, 3, 4, 6, 8, 9] : List Nat), ∃ s, spl.get? i = some (PyVal.str s)

/-- A well-formed alignment record: the six required numeric fields parsed,
the subject-id field exists, and the query length is nonnegative (as it
always is for genuine blast output). -/
def wf_record (spl : List PyVal) : Prop :=
  ∃ qlen slen alen pident evl bits sid,
    spl.get? 1 = some (PyVal.num qlen) ∧ 0 ≤ qlen ∧
    spl.get? 3 = some (PyVal.num slen) ∧ spl.get? 4 = some (PyVal.num alen) ∧
    spl.get? 6 = some (PyVal.num pident) ∧ spl.get? 8 = some (PyVal.num evl) ∧
    spl.get? 9 = some (PyVal.num bits) ∧ spl.get? 2 = some sid

example : pySplit " or " "g1 or g2" = ["g1", "g2"] := by decide
example : pySplit " or " "" = [""] := by decide
example : pyJoin " or " ["s1", "s2", "s3"] = "s1 or s2 or s3" := by decide

example : drafting ⟨"ref", [⟨"r1", "g1 or g2", []⟩]⟩
    [("g1", ["s1"]), ("g2", ["s2", "s3"])] "new" =
    ⟨"new", [⟨"r1", "s1 or s2 or s3", []⟩]⟩ := by decide

example : select_genes [("g", [[PyVal.str ""]])] 50 30 1 20 300 =
    .error .indexError := rfl

/-! ### Helper lemmas on the hit filter -/

theorem select_record_ok_eq (dico : Dico) (key : String) (spl : List PyVal)
    (qlen slen alen pident evl bits : ℚ) (sid : PyVal)
    (identity diff e_val coverage bit_score : ℚ)
    (h1 : spl.get? 1 = some (.num qlen)) (h3 : spl.get? 3 = some (.num slen))
    (h4 : spl.get? 4 = some (.num alen)) (h6 : spl.get? 6 = some (.num pident))
    (h8 : spl.get? 8 = some (.num evl)) (h9 : spl.get? 9 = some (.num bits))
    (h2 : spl.get? 2 = some sid) :
    select_record dico key spl identity diff e_val coverage bit_score =
      .ok (if passes_thresholds qlen slen alen pident evl bits
              identity diff e_val coverage bit_score
           then dicoAppend dico key sid else dico) := by
  simp only [select_record, passes_thresholds, h1, h2, h3, h4, h6, h8, h9]
  by_cases c1 : identity ≤ pident <;>
  by_cases c2 : qlen * (100 - diff) / 100 ≤ slen <;>
  by_cases c3 : slen ≤ qlen * (100 + diff) / 100 <;>
  by_cases c4 : coverage / 100 * qlen ≤ alen <;>
  by_cases c5 : bit_score ≤ bits <;>
  by_cases c6 : evl ≤ e_val <;>
  simp only [c1, c2, c3, c4, c5, c6, if_true, if_false, decide_true_eq_true,
    decide_false_eq_false, if_pos, if_neg, decide_eq_true_eq, Bool.and_eq_true,
    and_true, true_and, and_false, false_and, decide_eq_false_iff_not,
    not_true, not_false_iff, ite_true, ite_false] <;>
  simp [c1, c2, c3, c4, c5, c6]

theorem select_record_ok_changed (dico : Dico) (key : String) (spl : List PyVal)
    (identity diff e_val coverage bit_score : ℚ) (d : Dico)
    (h : select_record dico key spl identity diff e_val coverage bit_score = .ok d)
    (hne : d ≠ dico) :
    (∃ q, spl.get? 1 = some (PyVal.num q)) ∧
    (∃ q, spl.get? 3 = some (PyVal.num q)) ∧
    (∃ q, spl.get? 4 = some (PyVal.num q)) ∧
    (∃ q, spl.get? 6 = some (PyVal.num q)) ∧
    (∃ q, spl.get? 8 = some (PyVal.num q)) ∧
    (∃ q, spl.get? 9 = some (PyVal.num q)) ∧
    (∃ sid, spl.get? 2 = some sid ∧ d = dicoAppend dico key sid) := by
  unfold select_record at h
  repeat' split at h
  all_goals
    first
      | exact Except.noConfusion h
      | exact absurd (Except.ok.inj h).symm hne
      | · injection h with h
          exact ⟨⟨_, by assumption⟩, ⟨_, by assumption⟩, ⟨_, by assumption⟩,
            ⟨_, by assumption⟩, ⟨_, by assumption⟩, ⟨_, by assumption⟩,
            ⟨_, by assumption, h.symm⟩⟩

@[simp] theorem exBind_ok (d : Dico) (f : Dico → Except PyErr Dico) :
    exBind (.ok d) f = f d := rfl

@[simp] theorem exBind_error (e : PyErr) (f : Dico → Except PyErr Dico) :
    exBind (.error e) f = .error e := rfl

theorem exBind_eq_ok (x : Except PyErr Dico) (f : Dico → Except PyErr Dico)
    (d : Dico) :
    exBind x f = .ok d ↔ ∃ d1, x = .ok d1 ∧ f d1 = .ok d := by
  cases x <;> simp [exBind]

theorem select_list_cons (d : Dico) (k : String) (spl : List PyVal)
    (rest : List (List PyVal)) (identity diff e_val coverage bit_score : ℚ) :
    select_list d k (spl :: rest) identity diff e_val coverage bit_score =
      exBind (select_record d k spl identity diff e_val coverage bit_score)
        (fun d1 => select_list d1 k rest identity diff e_val coverage bit_score) := by
  cases h : select_record d k spl identity diff e_val coverage bit_score <;>
    simp [select_list, h, exBind]

theorem select_list_append (d : Dico) (k : String) (l1 l2 : List (List PyVal))
    (identity diff e_val coverage bit_score : ℚ) :
    select_list d k (l1 ++ l2) identity diff e_val coverage bit_score =
      exBind (select_list d k l1 identity diff e_val coverage bit_score)
        (fun d1 => select_list d1 k l2 identity diff e_val coverage bit_score) := by
  induction l1 generalizing d with
  | nil => simp [select_list]
  | cons spl rest ih =>
      simp only [List.cons_append, select_list_cons]
      cases h : select_record d k spl identity diff e_val coverage bit_score <;>
        simp [ih]

theorem select_genes_from_cons (d : Dico) (k : String) (records : List (List PyVal))
    (rest : List (String × List (List PyVal)))
    (identity diff e_val coverage bit_score : ℚ) :
    select_genes_from d ((k, records) :: rest) identity diff e_val coverage bit_score =
      exBind (select_list d k records identity diff e_val coverage bit_score)
        (fun d1 => select_genes_from d1 rest identity diff e_val coverage bit_score) := by
  cases h : select_list d k records identity diff e_val coverage bit_score <;>
    simp [select_genes_from, h, exBind]

theorem select_genes_from_append (d : Dico) (b1 b2 : List (String × List (List PyVal)))
    (identity diff e_val coverage bit_score : ℚ) :
    select_genes_from d (b1 ++ b2) identity diff e_val coverage bit_score =
      exBind (select_genes_from d b1 identity diff e_val coverage bit_score)
        (fun d1 => select_genes_from d1 b2 identity diff e_val coverage bit_score) := by
  induction b1 generalizing d with
  | nil => simp [select_genes_from]
  | cons kv rest ih =>
      obtain ⟨k, records⟩ := kv
      simp only [List.cons_append, select_genes_from_cons]
      cases h : select_list d k records identity diff e_val coverage bit_score <;>
        simp [ih]

theorem select_record_deficient (dico : Dico) (key : String) (spl : List PyVal)
    (identity diff e_val coverage bit_score : ℚ) (d : Dico)
    (hm : deficient_record spl)
    (h : select_record dico key spl identity diff e_val coverage bit_score = .ok d) :
    d = dico := by
  by_contra hne
  obtain ⟨⟨q1, e1⟩, ⟨q3, e3⟩, ⟨q4, e4⟩, ⟨q6, e6⟩, ⟨q8, e8⟩, ⟨q9, e9⟩, sid, e2, hd⟩ :=
    select_record_ok_changed dico key spl identity diff e_val coverage bit_score d h hne
  rcases hm with hlen | ⟨i, hi, s, hs⟩
  · rcases List.get?_eq_some.mp e9 with ⟨h9, -⟩
    omega
  · fin_cases hi <;> simp_all

/-! ### Claim C1: handling of malformed alignment records -/

/-- **C1 (counterexample).** Both halves of the claim fail on the code.
"Never raises": an empty line splits to the single unparsed field `""`, and
`select_genes` hits `spl[3]` and raises IndexError.  "Never contributes": an
eleven-field line — wrong field count, hence malformed — whose required
fields are numeric is processed as if the extra field were absent, passes
all five thresholds and contributes its subject id to the output map. -/
theorem select_genes_malformed_raises_counterexample :
    (malformed_record [PyVal.str ""] ∧
      select_genes [("g", [[PyVal.str ""]])] 50 30 1 20 300 =
        .error .indexError) ∧
    (malformed_record [PyVal.str "q", PyVal.num 300, PyVal.str "s",
        PyVal.num 290, PyVal.num 280, PyVal.num 160, PyVal.num 55,
        PyVal.num 200, PyVal.num 0, PyVal.num 310, PyVal.str "extra"] ∧
      select_genes [("g", [[PyVal.str "q", PyVal.num 300, PyVal.str "s",
        PyVal.num 290, PyVal.num 280, PyVal.num 160, PyVal.num 55,
        PyVal.num 200, PyVal.num 0, PyVal.num 310, PyVal.str "extra"]])]
        50 30 1 20 300 = .ok [("g", [PyVal.str "s"])]) := by
  refine ⟨⟨Or.inl (by decide), rfl⟩, Or.inl (by decide), ?_⟩
  norm_num [select_genes, select_genes_from, select_list, select_record,
    dicoAppend, List.get?]

theorem select_record_take_ten (dico : Dico) (key : String) (spl : List PyVal)
    (identity diff e_val coverage bit_score : ℚ) :
    select_record dico key (spl.take 10) identity diff e_val coverage bit_score =
      select_record dico key spl identity diff e_val coverage bit_score := by
  have hg : ∀ i : Nat, i < 10 → (spl.take 10).get? i = spl.get? i := by
    intro i hi
    rw [List.get?_eq_getElem?, List.get?_eq_getElem?, List.getElem?_take,
      if_pos hi]
  unfold select_record
  rw [hg 3 (by norm_num), hg 1 (by norm_num), hg 6 (by norm_num),
    hg 4 (by norm_num), hg 9 (by norm_num), hg 8 (by norm_num),
    hg 2 (by norm_num)]

/-- **C1 (amended).** What survives of the claim, split by the kind of
malformation.  (1) A deficient record — fewer than ten fields, or a required
numeric field left as text — never contributes a match: whenever a run of
`select_genes` whose input contains such a record returns without an
exception, deleting that record from the input yields the very same output
map; the "never raises" half is false, since the record may instead abort
the run with an IndexError or TypeError, and it is silently excluded only
when short-circuit evaluation rejects it before touching the malformed
part.  (2) A record with MORE than ten fields — also a wrong field count —
is not excluded at all: the loop body reads only fields 0-9, so the record
behaves exactly like its ten-field truncation and can contribute a match
(the counterexample exhibits one that does). -/
theorem select_genes_malformed_excluded_when_ok :
    (∀ (b1 b2 : List (String × List (List PyVal))) (key : String)
        (l1 l2 : List (List PyVal)) (spl : List PyVal)
        (identity diff e_val coverage bit_score : ℚ) (d : Dico),
      deficient_record spl →
      select_genes (b1 ++ (key, l1 ++ spl :: l2) :: b2)
        identity diff e_val coverage bit_score = .ok d →
      select_genes (b1 ++ (key, l1 ++ l2) :: b2)
        identity diff e_val coverage bit_score = .ok d) ∧
    (∀ (dico : Dico) (key : String) (spl : List PyVal)
        (identity diff e_val coverage bit_score : ℚ),
      select_record dico key (spl.take 10) identity diff e_val coverage
          bit_score =
        select_record dico key spl identity diff e_val coverage bit_score) := by
  constructor
  · intro b1 b2 key l1 l2 spl identity diff e_val coverage bit_score d hm h
    unfold select_genes at h ⊢
    rw [select_genes_from_append] at h ⊢
    rw [exBind_eq_ok] at h
    obtain ⟨d0, hb1, h⟩ := h
    rw [select_genes_from_cons, exBind_eq_ok] at h
    obtain ⟨dd, hlist, h⟩ := h
    rw [select_list_append, exBind_eq_ok] at hlist
    obtain ⟨d1, hl1, hrest⟩ := hlist
    rw [select_list_cons, exBind_eq_ok] at hrest
    obtain ⟨d2, hr, hl2⟩ := hrest
    have hd2 : d2 = d1 :=
      select_record_deficient d1 key spl identity diff e_val coverage bit_score
        d2 hm hr
    subst hd2
    rw [hb1, exBind_ok, select_genes_from_cons, select_list_append, hl1,
      exBind_ok, hl2, exBind_ok]
    exact h
  · exact select_record_take_ten

theorem select_genes_malformed_excluded_when_ok_witness :
    select_genes [("g", ([] : List (List PyVal)))] 50 30 1 20 300 = .ok [] ∧
    select_record [] "g"
      ([PyVal.str "q", PyVal.num 300, PyVal.str "s", PyVal.num 290,
        PyVal.num 280, PyVal.num 160, PyVal.num 55, PyVal.num 200,
        PyVal.num 0, PyVal.num 310, PyVal.str "extra"].take 10)
      50 30 1 20 300 =
      select_record [] "g"
        [PyVal.str "q", PyVal.num 300, PyVal.str "s", PyVal.num 290,
          PyVal.num 280, PyVal.num 160, PyVal.num 55, PyVal.num 200,
          PyVal.num 0, PyVal.num 310, PyVal.str "extra"]
        50 30 1 20 300 :=
  ⟨select_genes_malformed_excluded_when_ok.1 [] [] "g" [] []
      [PyVal.str "q", PyVal.num 300, PyVal.str "s", PyVal.num 290,
        PyVal.str "x", PyVal.num 0, PyVal.num 10]
      50 30 1 20 300 [] (Or.inl (by decide))
      (by norm_num [select_genes, select_genes_from, select_list, select_record]),
   select_genes_malformed_excluded_when_ok.2 [] "g"
     [PyVal.str "q", PyVal.num 300, PyVal.str "s", PyVal.num 290,
       PyVal.num 280, PyVal.num 160, PyVal.num 55, PyVal.num 200,
       PyVal.num 0, PyVal.num 310, PyVal.str "extra"]
     50 30 1 20 300⟩

/-! ### Claim C2: a fully numeric record is kept iff all five thresholds pass -/

/-- **C2.** For a record whose required fields all parsed as numbers, the loop
body of `select_genes` appends the record's subject id (`spl[2]`) to the entry
of the current reference gene exactly when all five threshold criteria hold —
and otherwise leaves the dictionary untouched and raises nothing. -/
theorem select_record_subject_included_iff_thresholds
    (dico : Dico) (key : String) (spl : List PyVal)
    (qlen slen alen pident evl bits : ℚ) (sid : PyVal)
    (identity diff e_val coverage bit_score : ℚ)
    (h1 : spl.get? 1 = some (.num qlen)) (h3 : spl.get? 3 = some (.num slen))
    (h4 : spl.get? 4 = some (.num alen)) (h6 : spl.get? 6 = some (.num pident))
    (h8 : spl.get? 8 = some (.num evl)) (h9 : spl.get? 9 = some (.num bits))
    (h2 : spl.get? 2 = some sid) :
    select_record dico key spl identity diff e_val coverage bit_score =
      .ok (if passes_thresholds qlen slen alen pident evl bits
              identity diff e_val coverage bit_score
           then dicoAppend dico key sid else dico) :=
  select_record_ok_eq dico key spl qlen slen alen pident evl bits sid
    identity diff e_val coverage bit_score h1 h3 h4 h6 h8 h9 h2

/-- Witness for C2, on the passing scenario of the spec (`qlen=300, slen=290,
length=280, pident=55, evalue=0, bitscore=310` against `identity=50, diff=10,
e_val=1, coverage=90, bit_score=300`). -/
theorem select_record_subject_included_iff_thresholds_witness :
    select_record [] "g"
      [PyVal.str "q", PyVal.num 300, PyVal.str "s", PyVal.num 290,
        PyVal.num 280, PyVal.num 160, PyVal.num 55, PyVal.num 200,
        PyVal.num 0, PyVal.num 310]
      50 10 1 90 300 = .ok [("g", [PyVal.str "s"])] := by
  rw [select_record_subject_included_iff_thresholds [] "g"
    [PyVal.str "q", PyVal.num 300, PyVal.str "s", PyVal.num 290,
      PyVal.num 280, PyVal.num 160, PyVal.num 55, PyVal.num 200,
      PyVal.num 0, PyVal.num 310]
    300 290 280 55 0 310 (PyVal.str "s") 50 10 1 90 300
    rfl rfl rfl rfl rfl rfl rfl]
  norm_num [passes_thresholds, dicoAppend]

/-! ### Claim C7: no key of the output ever maps to an empty list -/

theorem dicoAppend_ne_nil (d : Dico) (key : String) (v : PyVal) :
    (∀ p ∈ d, p.2 ≠ []) → ∀ p ∈ dicoAppend d key v, p.2 ≠ [] := by
  induction d with
  | nil =>
      intro _ p hp
      simp only [dicoAppend, List.mem_singleton] at hp
      simp [hp]
  | cons kv rest ih =>
      obtain ⟨k1, vs⟩ := kv
      intro h p hp
      simp only [dicoAppend] at hp
      split at hp
      · rcases List.mem_cons.mp hp with rfl | hp2
        · simp
        · exact h p (List.mem_cons_of_mem _ hp2)
      · rcases List.mem_cons.mp hp with rfl | hp2
        · exact h _ (List.mem_cons_self _ _)
        · exact ih (fun q hq => h q (List.mem_cons_of_mem _ hq)) p hp2

theorem select_record_ne_nil (dico : Dico) (key : String) (spl : List PyVal)
    (identity diff e_val coverage bit_score : ℚ) (d : Dico)
    (h : select_record dico key spl identity diff e_val coverage bit_score = .ok d)
    (hd : ∀ p ∈ dico, p.2 ≠ []) : ∀ p ∈ d, p.2 ≠ [] := by
  by_cases hne : d = dico
  · subst hne; exact hd
  · obtain ⟨-, -, -, -, -, -, sid, -, rfl⟩ :=
      select_record_ok_changed dico key spl identity diff e_val coverage bit_score d h hne
    exact dicoAppend_ne_nil dico key sid hd

theorem select_list_ne_nil (key : String) (records : List (List PyVal))
    (identity diff e_val coverage bit_score : ℚ) :
    ∀ (dico d : Dico),
      select_list dico key records identity diff e_val coverage bit_score = .ok d →
      (∀ p ∈ dico, p.2 ≠ []) → ∀ p ∈ d, p.2 ≠ [] := by
  induction records with
  | nil =>
      intro dico d h hd
      simp only [select_list] at h
      exact (Except.ok.inj h) ▸ hd
  | cons spl rest ih =>
      intro dico d h hd
      rw [select_list_cons, exBind_eq_ok] at h
      obtain ⟨d1, hr, hrest⟩ := h
      exact ih d1 d hrest
        (select_record_ne_nil dico key spl identity diff e_val coverage bit_score d1 hr hd)

theorem select_genes_from_ne_nil (blast_res : List (String × List (List PyVal)))
    (identity diff e_val coverage bit_score : ℚ) :
    ∀ (dico d : Dico),
      select_genes_from dico blast_res identity diff e_val coverage bit_score = .ok d →
      (∀ p ∈ dico, p.2 ≠ []) → ∀ p ∈ d, p.2 ≠ [] := by
  induction blast_res with
  | nil =>
      intro dico d h hd
      simp only [select_genes_from] at h
      exact (Except.ok.inj h) ▸ hd
  | cons kv rest ih =>
      obtain ⟨key, records⟩ := kv
      intro dico d h hd
      rw [select_genes_from_cons, exBind_eq_ok] at h
      obtain ⟨d1, hl, hrest⟩ := h
      exact ih d1 d hrest
        (select_list_ne_nil key records identity diff e_val coverage bit_score dico d1 hl hd)

/-- **C7.** Whenever `select_genes` returns, no key of the returned map is
bound to an empty list: a reference gene with zero passing records is simply
absent, and a key is only ever created together with its first appended
match.  (In the embedding, `dicoAppend` is the only operation that creates or
extends an entry, and it always appends one element.) -/
theorem select_genes_no_empty_value_lists
    (blast_res : List (String × List (List PyVal)))
    (identity diff e_val coverage bit_score : ℚ) (d : Dico)
    (h : select_genes blast_res identity diff e_val coverage bit_score = .ok d) :
    ∀ p ∈ d, p.2 ≠ [] :=
  select_genes_from_ne_nil blast_res identity diff e_val coverage bit_score [] d h
    (by simp)

theorem select_genes_no_empty_value_lists_witness :
    (("g", [PyVal.num 0]) : String × List PyVal).2 ≠ [] :=
  select_genes_no_empty_value_lists
    [("g", [[PyVal.num 0, PyVal.num 0, PyVal.num 0, PyVal.num 0, PyVal.num 0,
      PyVal.num 0, PyVal.num 0, PyVal.num 0, PyVal.num 0, PyVal.num 0]])]
    0 0 1 0 0 [("g", [PyVal.num 0])]
    (by norm_num [select_genes, select_genes_from, select_list, select_record, dicoAppend])
    ("g", [PyVal.num 0]) (by simp)

/-! ### Claim C9: identical inputs give identical outputs -/

/-- **C9.** Two calls of `select_genes` with equal blast-result input and
equal threshold parameters return equal outputs (the embedding is a pure
function: same keys in the same insertion order, same value lists). -/
theorem select_genes_deterministic
    (b1 b2 : List (String × List (List PyVal)))
    (i1 i2 df1 df2 ev1 ev2 c1 c2 bs1 bs2 : ℚ)
    (hb : b1 = b2) (hi : i1 = i2) (hdf : df1 = df2) (he : ev1 = ev2)
    (hc : c1 = c2) (hbs : bs1 = bs2) :
    select_genes b1 i1 df1 ev1 c1 bs1 = select_genes b2 i2 df2 ev2 c2 bs2 := by
  subst hb hi hdf he hc hbs
  rfl

theorem select_genes_deterministic_witness :
    select_genes [("g", [[PyVal.str ""]])] 50 30 1 20 300 =
      select_genes [("g", [[PyVal.str ""]])] 50 30 1 20 300 :=
  select_genes_deterministic _ _ 50 50 30 30 1 1 20 20 300 300
    rfl rfl rfl rfl rfl rfl

/-! ### Claim C3: every draft reaction has a non-empty rewritten rule -/

theorem drafting_foldl_rules_ne (dico : List (String × List String)) :
    ∀ (reactions acc : List Reaction),
      (∀ r ∈ acc, r.gene_reaction_rule ≠ "") →
      ∀ r ∈ reactions.foldl (drafting_step dico) acc, r.gene_reaction_rule ≠ "" := by
  intro reactions
  induction reactions with
  | nil => intro acc h r hr; exact h r hr
  | cons reac rest ih =>
      intro acc h r hr
      simp only [List.foldl_cons] at hr
      refine ih _ ?_ r hr
      intro x hx
      simp only [drafting_step] at hx
      by_cases hc :
          pyJoin " or " (to_add_of dico (pySplit " or " reac.gene_reaction_rule)) = ""
      · rw [if_pos hc] at hx
        exact h x hx
      · rw [if_neg hc] at hx
        rcases List.mem_append.mp hx with hx2 | hx2
        · exact h x hx2
        · simp only [List.mem_singleton] at hx2
          subst hx2
          exact hc

/-- **C3.** Every reaction present in the model returned by `drafting` has a
non-empty `gene_reaction_rule`: the loop adds a (deep-copied) reaction only
under the truthiness guard on the rewritten rule, so a reaction whose
rewritten rule is the empty string is dropped, never added with an empty
rule. -/
theorem drafting_reaction_rules_nonempty (model : Model)
    (dico_genes : List (String × List String)) (model_name : String) :
    ∀ r ∈ (drafting model dico_genes model_name).reactions,
      r.gene_reaction_rule ≠ "" := by
  intro r hr
  exact drafting_foldl_rules_ne dico_genes model.reactions [] (by simp) r hr

theorem drafting_reaction_rules_nonempty_witness :
    (Reaction.mk "r1" "s1" []).gene_reaction_rule ≠ "" :=
  drafting_reaction_rules_nonempty ⟨"ref", [⟨"r1", "g1", []⟩]⟩ [("g1", ["s1"])]
    "draft" ⟨"r1", "s1", []⟩ (by decide)

/-! ### Claim C6: the concrete rule-rewrite scenario -/

/-- **C6.** The round-trip scenario of the spec: a reaction with rule
`"g1 or g2"` and match map `{g1: [s1], g2: [s2, s3]}` is rewritten to exactly
`"s1 or s2 or s3"` (token order, then match order within a token); and with
`{g1: [s], g2: [s]}` the duplicate identifier is kept, giving `"s or s"` —
this step never de-duplicates. -/
theorem drafting_rewrites_rule_in_order :
    (drafting ⟨"ref", [⟨"r1", "g1 or g2", []⟩]⟩
        [("g1", ["s1"]), ("g2", ["s2", "s3"])] "draft").reactions =
      [⟨"r1", "s1 or s2 or s3", []⟩] ∧
    (drafting ⟨"ref", [⟨"r2", "g1 or g2", []⟩]⟩
        [("g1", ["s"]), ("g2", ["s"])] "draft").reactions =
      [⟨"r2", "s or s", []⟩] := by
  exact ⟨by decide, by decide⟩

/-! ### Claim C8: `drafting` does not mutate the reference model -/

theorem drafting_with_ref_foldl (dico : List (String × List String)) :
    ∀ (l : List Reaction) (a b : List Reaction),
      l.foldl (fun (st : List Reaction × List Reaction) reac =>
          (drafting_step dico st.1 reac, st.2 ++ [reac])) (a, b) =
        (l.foldl (drafting_step dico) a, b ++ l) := by
  intro l
  induction l with
  | nil => intro a b; simp
  | cons reac rest ih =>
      intro a b
      simp only [List.foldl_cons]
      rw [ih]
      simp

/-- **C8.** `drafting` does not mutate the reference model: with the heap
effect of the loop made explicit (`drafting_with_ref` threads the reference
reaction collection through the iterations; the field assignment hits only
the `copy.deepcopy` of each reaction), the reference model at the end of the
call is exactly the input model — same reaction collection, with each
reaction's `gene_reaction_rule` and stoichiometric definition unchanged —
while the first component is the usual draft. -/
theorem drafting_does_not_mutate_reference (model : Model)
    (dico_genes : List (String × List String)) (model_name : String) :
    drafting_with_ref model dico_genes model_name =
      (drafting model dico_genes model_name, model) := by
  unfold drafting_with_ref drafting
  rw [drafting_with_ref_foldl]
  simp

/-! ### Claim C5: reference reactions with an empty rule -/

/-- **C5 (counterexample).** The claim quantifies over every `GeneMatchMap`,
"whatever keys they contain".  But `"".split(" or ") == [""]` in Python, so
when the match map contains the empty string as a key, an empty-rule
reaction picks up that entry's matches and IS added to the draft. -/
theorem drafting_empty_rule_included_counterexample :
    (drafting ⟨"ref", [⟨"r1", "", []⟩]⟩ [("", ["s1"])] "draft").reactions =
      [⟨"r1", "s1", []⟩] := by decide

theorem drafting_step_empty_rule (dico : List (String × List String))
    (acc : List Reaction) (reac : Reaction)
    (hrule : reac.gene_reaction_rule = "")
    (hnk : List.lookup "" dico = none) :
    drafting_step dico acc reac = acc := by
  simp only [drafting_step, hrule]
  have h1 : pySplit " or " "" = [""] := rfl
  rw [h1]
  have h2 : to_add_of dico [""] = [] := by
    simp [to_add_of, hnk]
  rw [h2]
  simp [pyJoin]

theorem drafting_foldl_filter_empty_rule (dico : List (String × List String))
    (hnk : List.lookup "" dico = none) :
    ∀ (reactions acc : List Reaction),
      (reactions.filter (fun r => !(r.gene_reaction_rule == ""))).foldl
          (drafting_step dico) acc =
        reactions.foldl (drafting_step dico) acc := by
  intro reactions
  induction reactions with
  | nil => intro acc; rfl
  | cons reac rest ih =>
      intro acc
      by_cases hr : reac.gene_reaction_rule = ""
      · rw [List.filter_cons_of_neg (by simp [hr])]
        rw [List.foldl_cons, drafting_step_empty_rule dico acc reac hr hnk]
        exact ih acc
      · rw [List.filter_cons_of_pos (by simp [hr])]
        rw [List.foldl_cons, List.foldl_cons]
        exact ih (drafting_step dico acc reac)

/-- **C5 (amended).** For every `GeneMatchMap` that does not contain the empty
string as a key (as any map produced from real gene identifiers does), a
reference reaction whose `gene_reaction_rule` is the empty string never
reaches the draft: deleting all empty-rule reactions from the reference model
does not change the result of `drafting` at all. -/
theorem drafting_never_includes_empty_rule_reaction (model : Model)
    (dico_genes : List (String × List String)) (model_name : String)
    (hnk : List.lookup "" dico_genes = none) :
    drafting ⟨model.name,
        model.reactions.filter (fun r => !(r.gene_reaction_rule == ""))⟩
      dico_genes model_name = drafting model dico_genes model_name := by
  unfold drafting
  simp only
  rw [drafting_foldl_filter_empty_rule dico_genes hnk]

theorem drafting_never_includes_empty_rule_reaction_witness :
    drafting ⟨"ref", ([] : List Reaction)⟩ [("g1", ["s1"])] "draft" =
      drafting ⟨"ref", [⟨"r1", "", []⟩]⟩ [("g1", ["s1"])] "draft" :=
  drafting_never_includes_empty_rule_reaction ⟨"ref", [⟨"r1", "", []⟩]⟩
    [("g1", ["s1"])] "draft" (by decide)

/-! ### Claim C10: a key mapped to an empty list behaves like an absent key -/

theorem to_add_of_eq_foldl_getD (dico : List (String × List String))
    (ts : List String) :
    to_add_of dico ts =
      ts.foldl (fun acc gene => acc ++ (List.lookup gene dico).getD []) [] := by
  unfold to_add_of
  apply List.foldl_ext
  intro acc gene _
  rcases List.lookup gene dico with _ | l <;> simp

theorem to_add_of_congr (d1 d2 : List (String × List String))
    (h : ∀ t, (List.lookup t d1).getD [] = (List.lookup t d2).getD [])
    (ts : List String) : to_add_of d1 ts = to_add_of d2 ts := by
  rw [to_add_of_eq_foldl_getD, to_add_of_eq_foldl_getD]
  apply List.foldl_ext
  intro acc gene _
  rw [h gene]

theorem to_add_of_all_empty (dico : List (String × List String))
    (ts : List String)
    (h : ∀ t ∈ ts, (List.lookup t dico).getD [] = []) :
    to_add_of dico ts = [] := by
  rw [to_add_of_eq_foldl_getD]
  induction ts with
  | nil => rfl
  | cons t rest ih =>
      simp only [List.foldl_cons, h t (List.mem_cons_self _ _), List.append_nil]
      exact ih fun x hx => h x (List.mem_cons_of_mem _ hx)

theorem drafting_congr (d1 d2 : List (String × List String))
    (h : ∀ t, (List.lookup t d1).getD [] = (List.lookup t d2).getD [])
    (model : Model) (name : String) :
    drafting model d1 name = drafting model d2 name := by
  unfold drafting
  congr 1
  apply List.foldl_ext
  intro acc reac _
  simp only [drafting_step, to_add_of_congr d1 d2 h]

theorem cons_empty_entry_getD (dico : List (String × List String)) (g : String)
    (hg : List.lookup g dico = none) (t : String) :
    (List.lookup t ((g, ([] : List String)) :: dico)).getD [] =
      (List.lookup t dico).getD [] := by
  by_cases ht : t = g
  · subst ht
    simp [List.lookup, hg]
  · have hbe : (t == g) = false := by simp [ht]
    simp [List.lookup, hbe]

/-- **C10.** In `drafting`, a gene token whose entry in `dico_genes` is
present but maps to an empty list contributes no identifiers, exactly as if
the token were absent from the map: prepending an `(g, [])` entry for an
otherwise-absent key `g` changes nothing in the output.  Moreover a reaction
whose every rule token has no matches (empty list or absent) is dropped from
the draft. -/
theorem drafting_empty_match_entry_like_absent
    (model : Model) (dico : List (String × List String)) (name g : String)
    (hg : List.lookup g dico = none) :
    drafting model ((g, ([] : List String)) :: dico) name =
      drafting model dico name ∧
    (∀ (dico2 : List (String × List String)) (nm2 name2 : String)
        (reac : Reaction),
      (∀ t ∈ pySplit " or " reac.gene_reaction_rule,
        (List.lookup t dico2).getD [] = []) →
      (drafting ⟨nm2, [reac]⟩ dico2 name2).reactions = []) := by
  constructor
  · exact drafting_congr _ _ (cons_empty_entry_getD dico g hg) model name
  · intro dico2 nm2 name2 reac h
    unfold drafting
    simp only [List.foldl_cons, List.foldl_nil]
    simp only [drafting_step, to_add_of_all_empty dico2 _ h]
    simp [pyJoin]

theorem drafting_empty_match_entry_like_absent_witness :
    (drafting ⟨"ref", [⟨"r1", "g1 or g2", []⟩]⟩
        [("g3", ([] : List String)), ("g1", ["s1"])] "draft" =
      drafting ⟨"ref", [⟨"r1", "g1 or g2", []⟩]⟩ [("g1", ["s1"])] "draft") ∧
    (drafting ⟨"ref2", [⟨"r2", "g9", []⟩]⟩ [("g9", ([] : List String))]
        "draft2").reactions = [] := by
  have h := drafting_empty_match_entry_like_absent
    ⟨"ref", [⟨"r1", "g1 or g2", []⟩]⟩ [("g1", ["s1"])] "draft" "g3" (by decide)
  exact ⟨h.1, h.2 [("g9", [])] "ref2" "draft2" ⟨"r2", "g9", []⟩ (by decide)⟩

/-! ### Claim C4: stricter thresholds never add matches -/

theorem passes_thresholds_mono
    (qlen slen alen pident evl bits : ℚ)
    (identity diff e_val coverage bit_score : ℚ)
    (identity2 diff2 e_val2 coverage2 bit_score2 : ℚ)
    (hq : 0 ≤ qlen)
    (hi : identity ≤ identity2) (hdf : diff2 ≤ diff) (he : e_val2 ≤ e_val)
    (hc : coverage ≤ coverage2) (hbs : bit_score ≤ bit_score2)
    (h : passes_thresholds qlen slen alen pident evl bits
          identity2 diff2 e_val2 coverage2 bit_score2 = true) :
    passes_thresholds qlen slen alen pident evl bits
      identity diff e_val coverage bit_score = true := by
  simp only [passes_thresholds, Bool.and_eq_true, decide_eq_true_eq] at h ⊢
  obtain ⟨⟨⟨⟨⟨h1, h2⟩, h3⟩, h4⟩, h5⟩, h6⟩ := h
  have k2 : qlen * (100 - diff) ≤ qlen * (100 - diff2) :=
    mul_le_mul_of_nonneg_left (by linarith) hq
  have k2d : qlen * (100 - diff) / 100 ≤ qlen * (100 - diff2) / 100 :=
    (div_le_div_iff_of_pos_right (by norm_num : (0 : ℚ) < 100)).mpr k2
  have k3 : qlen * (100 + diff2) ≤ qlen * (100 + diff) :=
    mul_le_mul_of_nonneg_left (by linarith) hq
  have k3d : qlen * (100 + diff2) / 100 ≤ qlen * (100 + diff) / 100 :=
    (div_le_div_iff_of_pos_right (by norm_num : (0 : ℚ) < 100)).mpr k3
  have k4a : coverage / 100 ≤ coverage2 / 100 :=
    (div_le_div_iff_of_pos_right (by norm_num : (0 : ℚ) < 100)).mpr hc
  have k4 : coverage / 100 * qlen ≤ coverage2 / 100 * qlen :=
    mul_le_mul_of_nonneg_right k4a hq
  exact ⟨⟨⟨⟨⟨by linarith, by linarith⟩, by linarith⟩, by linarith⟩,
    by linarith⟩, by linarith⟩

theorem lookup_dicoAppend (d : Dico) (key : String) (v : PyVal) :
    ∀ k, List.lookup k (dicoAppend d key v) =
      if k = key then some ((List.lookup key d).getD [] ++ [v])
      else List.lookup k d := by
  induction d with
  | nil =>
      intro k
      by_cases hk : k = key
      · subst hk
        simp [dicoAppend, List.lookup]
      · have hbe : (k == key) = false := beq_eq_false_iff_ne.mpr hk
        simp [dicoAppend, List.lookup, hbe, hk]
  | cons p rest ih =>
      obtain ⟨k1, vs⟩ := p
      intro k
      simp only [dicoAppend]
      by_cases h1 : k1 = key
      · subst h1
        rw [if_pos rfl]
        by_cases hk : k = k1
        · subst hk
          simp [List.lookup]
        · have hbe : (k == k1) = false := beq_eq_false_iff_ne.mpr hk
          simp [List.lookup, hbe, hk]
      · rw [if_neg h1]
        by_cases hk : k = k1
        · subst hk
          have hbe : (k == k) = true := beq_self_eq_true k
          have hkey : ¬ k = key := h1
          simp [List.lookup, hbe, hkey]
        · have hbe : (k == k1) = false := beq_eq_false_iff_ne.mpr hk
          simp only [List.lookup, hbe]
          rw [ih k]
          by_cases hkey : k = key
          · subst hkey
            have hne2 : (k == k1) = false := hbe
            simp [List.lookup, hne2]
          · simp [hkey]

theorem select_record_mono (key : String) (spl : List PyVal)
    (identity diff e_val coverage bit_score : ℚ)
    (identity2 diff2 e_val2 coverage2 bit_score2 : ℚ)
    (hwf : wf_record spl)
    (hi : identity ≤ identity2) (hdf : diff2 ≤ diff) (he : e_val2 ≤ e_val)
    (hc : coverage ≤ coverage2) (hbs : bit_score ≤ bit_score2)
    (dS dL : Dico)
    (hR : ∀ k, ((List.lookup k dS).getD []).Sublist ((List.lookup k dL).getD [])) :
    ∃ dS2 dL2,
      select_record dS key spl identity2 diff2 e_val2 coverage2 bit_score2 = .ok dS2 ∧
      select_record dL key spl identity diff e_val coverage bit_score = .ok dL2 ∧
      ∀ k, ((List.lookup k dS2).getD []).Sublist ((List.lookup k dL2).getD []) := by
  obtain ⟨qlen, slen, alen, pident, evl, bits, sid, h1, hq, h3, h4, h6, h8, h9, h2⟩ := hwf
  rw [select_record_ok_eq dS key spl qlen slen alen pident evl bits sid
    identity2 diff2 e_val2 coverage2 bit_score2 h1 h3 h4 h6 h8 h9 h2]
  rw [select_record_ok_eq dL key spl qlen slen alen pident evl bits sid
    identity diff e_val coverage bit_score h1 h3 h4 h6 h8 h9 h2]
  refine ⟨_, _, rfl, rfl, ?_⟩
  intro k
  by_cases hps : passes_thresholds qlen slen alen pident evl bits
      identity2 diff2 e_val2 coverage2 bit_score2 = true
  · have hpl := passes_thresholds_mono qlen slen alen pident evl bits
      identity diff e_val coverage bit_score identity2 diff2 e_val2 coverage2
      bit_score2 hq hi hdf he hc hbs hps
    rw [if_pos hps, if_pos hpl, lookup_dicoAppend, lookup_dicoAppend]
    by_cases hk : k = key
    · rw [if_pos hk, if_pos hk]
      simp only [Option.getD_some]
      exact (hR key).append (List.Sublist.refl [sid])
    · rw [if_neg hk, if_neg hk]
      exact hR k
  · rw [if_neg hps]
    by_cases hpl : passes_thresholds qlen slen alen pident evl bits
        identity diff e_val coverage bit_score = true
    · rw [if_pos hpl, lookup_dicoAppend]
      by_cases hk : k = key
      · rw [if_pos hk, hk]
        simp only [Option.getD_some]
        exact (hR key).trans (List.sublist_append_left _ _)
      · rw [if_neg hk]
        exact hR k
    · rw [if_neg hpl]
      exact hR k

theorem select_list_mono (key : String) (records : List (List PyVal))
    (identity diff e_val coverage bit_score : ℚ)
    (identity2 diff2 e_val2 coverage2 bit_score2 : ℚ)
    (hwf : ∀ spl ∈ records, wf_record spl)
    (hi : identity ≤ identity2) (hdf : diff2 ≤ diff) (he : e_val2 ≤ e_val)
    (hc : coverage ≤ coverage2) (hbs : bit_score ≤ bit_score2) :
    ∀ dS dL : Dico,
      (∀ k, ((List.lookup k dS).getD []).Sublist ((List.lookup k dL).getD [])) →
      ∃ dS2 dL2,
        select_list dS key records identity2 diff2 e_val2 coverage2 bit_score2 = .ok dS2 ∧
        select_list dL key records identity diff e_val coverage bit_score = .ok dL2 ∧
        ∀ k, ((List.lookup k dS2).getD []).Sublist ((List.lookup k dL2).getD []) := by
  induction records with
  | nil => intro dS dL hR; exact ⟨dS, dL, rfl, rfl, hR⟩
  | cons spl rest ih =>
      intro dS dL hR
      obtain ⟨dS1, dL1, hrS, hrL, hR1⟩ :=
        select_record_mono key spl identity diff e_val coverage bit_score
          identity2 diff2 e_val2 coverage2 bit_score2
          (hwf spl (List.mem_cons_self _ _)) hi hdf he hc hbs dS dL hR
      obtain ⟨dS2, dL2, hlS, hlL, hR2⟩ :=
        ih (fun spl2 hh => hwf spl2 (List.mem_cons_of_mem _ hh)) dS1 dL1 hR1
      refine ⟨dS2, dL2, ?_, ?_, hR2⟩
      · rw [select_list_cons, hrS, exBind_ok]; exact hlS
      · rw [select_list_cons, hrL, exBind_ok]; exact hlL

theorem select_genes_from_mono (blast_res : List (String × List (List PyVal)))
    (identity diff e_val coverage bit_score : ℚ)
    (identity2 diff2 e_val2 coverage2 bit_score2 : ℚ)
    (hwf : ∀ p ∈ blast_res, ∀ spl ∈ p.2, wf_record spl)
    (hi : identity ≤ identity2) (hdf : diff2 ≤ diff) (he : e_val2 ≤ e_val)
    (hc : coverage ≤ coverage2) (hbs : bit_score ≤ bit_score2) :
    ∀ dS dL : Dico,
      (∀ k, ((List.lookup k dS).getD []).Sublist ((List.lookup k dL).getD [])) →
      ∃ dS2 dL2,
        select_genes_from dS blast_res identity2 diff2 e_val2 coverage2 bit_score2 = .ok dS2 ∧
        select_genes_from dL blast_res identity diff e_val coverage bit_score = .ok dL2 ∧
        ∀ k, ((List.lookup k dS2).getD []).Sublist ((List.lookup k dL2).getD []) := by
  induction blast_res with
  | nil => intro dS dL hR; exact ⟨dS, dL, rfl, rfl, hR⟩
  | cons p rest ih =>
      obtain ⟨key, records⟩ := p
      intro dS dL hR
      obtain ⟨dS1, dL1, hrS, hrL, hR1⟩ :=
        select_list_mono key records identity diff e_val coverage bit_score
          identity2 diff2 e_val2 coverage2 bit_score2
          (fun spl hh => hwf (key, records) (List.mem_cons_self _ _) spl hh)
          hi hdf he hc hbs dS dL hR
      obtain ⟨dS2, dL2, hlS, hlL, hR2⟩ :=
        ih (fun p2 hh => hwf p2 (List.mem_cons_of_mem _ hh)) dS1 dL1 hR1
      refine ⟨dS2, dL2, ?_, ?_, hR2⟩
      · rw [select_genes_from_cons, hrS, exBind_ok]; exact hlS
      · rw [select_genes_from_cons, hrL, exBind_ok]; exact hlL

/-- **C4 (counterexample).** The claim quantifies over every blast-result set
whose records parse as numeric.  With a (physically impossible, but not
rejected by the code) negative query length, raising the coverage threshold
from 0 to 10 makes `min_align = coverage/100*qlen` MORE negative, so a
record that failed the coverage test under the looser run passes it under
the stricter one: the stricter run contains the pair ("g", "s") that the
looser run lacks. -/
theorem select_genes_stricter_coverage_adds_match_counterexample :
    select_genes [("g", [[PyVal.str "q", PyVal.num (-100), PyVal.str "s",
        PyVal.num (-100), PyVal.num (-5), PyVal.num 0, PyVal.num 100,
        PyVal.num 0, PyVal.num 0, PyVal.num 1000]])] 0 0 1 0 0 = .ok [] ∧
    select_genes [("g", [[PyVal.str "q", PyVal.num (-100), PyVal.str "s",
        PyVal.num (-100), PyVal.num (-5), PyVal.num 0, PyVal.num 100,
        PyVal.num 0, PyVal.num 0, PyVal.num 1000]])] 0 0 1 10 0 =
      .ok [("g", [PyVal.str "s"])] := by
  constructor <;>
    norm_num [select_genes, select_genes_from, select_list, select_record,
      dicoAppend, List.get?]

/-- **C4 (amended).** For every blast-result set whose records are
well-formed — required numeric fields parsed AND nonnegative query length, as
genuine blast output always has — making any combination of the five
thresholds stricter (raising identity, lowering diff, lowering e_val,
raising coverage, raising bit_score; a single change is the special case
where the other four are unchanged) never adds a match: both runs succeed
and, for every key, the stricter run's value list is a sublist of the looser
run's value list. -/
theorem select_genes_stricter_thresholds_no_new_matches
    (blast_res : List (String × List (List PyVal)))
    (identity diff e_val coverage bit_score : ℚ)
    (identity2 diff2 e_val2 coverage2 bit_score2 : ℚ)
    (hwf : ∀ p ∈ blast_res, ∀ spl ∈ p.2, wf_record spl)
    (hi : identity ≤ identity2) (hdf : diff2 ≤ diff) (he : e_val2 ≤ e_val)
    (hc : coverage ≤ coverage2) (hbs : bit_score ≤ bit_score2) :
    ∃ dS dL,
      select_genes blast_res identity2 diff2 e_val2 coverage2 bit_score2 = .ok dS ∧
      select_genes blast_res identity diff e_val coverage bit_score = .ok dL ∧
      ∀ k, ((List.lookup k dS).getD []).Sublist ((List.lookup k dL).getD []) := by
  unfold select_genes
  exact select_genes_from_mono blast_res identity diff e_val coverage bit_score
    identity2 diff2 e_val2 coverage2 bit_score2 hwf hi hdf he hc hbs [] []
    (fun k => List.Sublist.refl _)

theorem select_genes_stricter_thresholds_no_new_matches_witness :
    select_genes [("g", [[PyVal.str "q", PyVal.num 300, PyVal.str "s",
        PyVal.num 290, PyVal.num 280, PyVal.num 160, PyVal.num 55,
        PyVal.num 200, PyVal.num 0, PyVal.num 310]])] 60 20 1 95 400 = .ok [] ∧
    select_genes [("g", [[PyVal.str "q", PyVal.num 300, PyVal.str "s",
        PyVal.num 290, PyVal.num 280, PyVal.num 160, PyVal.num 55,
        PyVal.num 200, PyVal.num 0, PyVal.num 310]])] 50 30 2 90 300 =
      .ok [("g", [PyVal.str "s"])] ∧
    (([] : List PyVal)).Sublist [PyVal.str "s"] := by
  have e1 : select_genes [("g", [[PyVal.str "q", PyVal.num 300, PyVal.str "s",
      PyVal.num 290, PyVal.num 280, PyVal.num 160, PyVal.num 55,
      PyVal.num 200, PyVal.num 0, PyVal.num 310]])] 60 20 1 95 400 = .ok [] := by
    norm_num [select_genes, select_genes_from, select_list, select_record,
      dicoAppend, List.get?]
  have e2 : select_genes [("g", [[PyVal.str "q", PyVal.num 300, PyVal.str "s",
      PyVal.num 290, PyVal.num 280, PyVal.num 160, PyVal.num 55,
      PyVal.num 200, PyVal.num 0, PyVal.num 310]])] 50 30 2 90 300 =
      .ok [("g", [PyVal.str "s"])] := by
    norm_num [select_genes, select_genes_from, select_list, select_record,
      dicoAppend, List.get?]
  obtain ⟨dS, dL, hS, hL, hsub⟩ :=
    select_genes_stricter_thresholds_no_new_matches
      [("g", [[PyVal.str "q", PyVal.num 300, PyVal.str "s", PyVal.num 290,
        PyVal.num 280, PyVal.num 160, PyVal.num 55, PyVal.num 200,
        PyVal.num 0, PyVal.num 310]])] 50 30 2 90 300 60 20 1 95 400
      (by
        intro p hp spl hspl
        simp only [List.mem_singleton] at hp
        subst hp
        simp only [List.mem_singleton] at hspl
        subst hspl
        exact ⟨300, 290, 280, 55, 0, 310, PyVal.str "s", rfl, by norm_num,
          rfl, rfl, rfl, rfl, rfl, rfl⟩)
      (by norm_num) (by norm_num) (by norm_num) (by norm_num) (by norm_num)
  rw [hS] at e1
  rw [hL] at e2
  obtain rfl := Except.ok.inj e1
  obtain rfl := Except.ok.inj e2
  refine ⟨hS, hL, ?_⟩
  have := hsub "g"
  exact List.nil_sublist _
